import Mathlib

/-!
Shallow embedding of the Meta Vault math SDK (Python sources under `src/`):
`game_config.py`, `ways_evaluator.py`, `game_override.py`, `gamestate.py`, and
`games/meta_vault/gamestate.py` / `games/meta_vault/game_config.py`.

Python machine floats are modelled by `ℚ` (the payout pipeline performs only
products, sums and one exact division); Python `int` by `ℕ`/`ℤ` as appropriate;
fallible operations (indexing an empty population, raising `ValueError`) by
`Option`/`Except`.  The ambient `random` module is modelled as an explicit
stream `ℕ → ℕ` of draw indices, one per `random.choice` call.
-/

namespace MetaVault

/-- Symbol enumeration, from `game_config.py` (`class Symbol(Enum)`).  `S` is
the scatter ("Scatter"), `G` the collector ("Collector"), `W2X`/`W3X` the
2x/3x multiplier wilds. -/
inductive Symbol where
  | H1 | H2 | H3 | H4
  | L1 | L2 | L3 | L4 | L6
  | W | S | G
  | W2X | W3X
deriving DecidableEq, Repr

/-- `Symbol.value` strings, from `game_config.py`. -/
def Symbol.value : Symbol → String
  | .H1 => "H1" | .H2 => "H2" | .H3 => "H3" | .H4 => "H4"
  | .L1 => "L1" | .L2 => "L2" | .L3 => "L3" | .L4 => "L4" | .L6 => "L6"
  | .W => "W" | .S => "Scatter" | .G => "Collector"
  | .W2X => "2X" | .W3X => "3X"

/-- `REEL_COUNT = 5` from `game_config.py`. -/
def REEL_COUNT : ℕ := 5

/-- `ROWS_PER_REEL = 4` from `game_config.py`. -/
def ROWS_PER_REEL : ℕ := 4

/-- `PAYTABLE` from `game_config.py`, curried: `PAYTABLE s n` is the base
payout multiplier for symbol `s` at match count `n`, `none` where the Python
nested dict has no entry (covering both `PAYTABLE.get(target)` returning
`None` and `match_count not in symbol_payouts`). -/
def PAYTABLE : Symbol → ℕ → Option ℚ
  | .H1, 2 => some 1
  | .H1, 3 => some 5
  | .H1, 4 => some 25
  | .H1, 5 => some 100
  | .H2, 3 => some 3
  | .H2, 4 => some 15
  | .H2, 5 => some 50
  | .H3, 3 => some 2
  | .H3, 4 => some 10
  | .H3, 5 => some 40
  | .H4, 3 => some (3/2)
  | .H4, 4 => some 8
  | .H4, 5 => some 30
  | .L1, 3 => some 1
  | .L1, 4 => some 5
  | .L1, 5 => some 20
  | .L2, 3 => some (4/5)
  | .L2, 4 => some 4
  | .L2, 5 => some 15
  | .L3, 3 => some (3/5)
  | .L3, 4 => some 3
  | .L3, 5 => some 12
  | .L4, 3 => some (1/2)
  | .L4, 4 => some (5/2)
  | .L4, 5 => some 10
  | .L6, 3 => some (2/5)
  | .L6, 4 => some 2
  | .L6, 5 => some 8
  | _, _ => none

/-- The key set of `PAYTABLE` (Python `set(PAYTABLE.keys())`), in insertion
order. -/
def PAYTABLE_SYMBOLS : List Symbol :=
  [.H1, .H2, .H3, .H4, .L1, .L2, .L3, .L4, .L6]

/-- `WILD_SYMBOLS = {W, W2X, W3X}` from `game_config.py`, as a membership
test. -/
def WILD_SYMBOLS : Symbol → Bool
  | .W => true | .W2X => true | .W3X => true
  | _ => false

/-- `WILD_MULTIPLIERS.get(symbol, 1)` from `game_config.py`:
`{W: 1, W2X: 2, W3X: 3}` with default `1`. -/
def WILD_MULTIPLIERS : Symbol → ℚ
  | .W => 1 | .W2X => 2 | .W3X => 3
  | _ => 1

/-- `NON_SUBSTITUTABLE = {S, G}` from `game_config.py`, as a membership
test. -/
def NON_SUBSTITUTABLE : Symbol → Bool
  | .S => true | .G => true
  | _ => false

/-- A board: list of reels, each a list of cells (the game uses 5 reels of 4
rows). -/
abbrev Board : Type := List (List Symbol)

/-- Well-formedness of a board: exactly `REEL_COUNT` reels of
`ROWS_PER_REEL` rows, as the Python code assumes when it indexes
`reels[reel_idx][row_idx]` over fixed ranges. -/
def Board.WF (b : Board) : Prop :=
  b.length = REEL_COUNT ∧ ∀ reel ∈ b, reel.length = ROWS_PER_REEL

/-- The per-cell match test of `WaysEvaluator._evaluate_symbol`
(`ways_evaluator.py` lines 78-84): exact match, or a wild substituting for a
symbol outside `NON_SUBSTITUTABLE`. -/
def cellMatch (target c : Symbol) : Bool :=
  c = target || (WILD_SYMBOLS c && !NON_SUBSTITUTABLE target)

/-- Inner row loop of `_evaluate_symbol` (`for row_idx in
range(ROWS_PER_REEL)`), accumulating `(row_idx, multiplier)` pairs: `(i, 1)`
for an exact match, `(i, WILD_MULTIPLIERS.get(symbol, 1))` for a substituting
wild. -/
def matchesAux (target : Symbol) : List Symbol → ℕ → List (ℕ × ℚ)
  | [], _ => []
  | c :: cs, i =>
    if c = target then (i, 1) :: matchesAux target cs (i + 1)
    else if WILD_SYMBOLS c && !NON_SUBSTITUTABLE target then
      (i, WILD_MULTIPLIERS c) :: matchesAux target cs (i + 1)
    else matchesAux target cs (i + 1)

/-- Matches of `target` on one reel; the Python loop reads exactly
`ROWS_PER_REEL` rows. -/
def matchesOnReel (target : Symbol) (reel : List Symbol) : List (ℕ × ℚ) :=
  matchesAux target (reel.take ROWS_PER_REEL) 0

/-- Outer reel loop of `_evaluate_symbol` (`for reel_idx in
range(REEL_COUNT)`), with the `break` at the first reel with no matches. -/
def collectReels (target : Symbol) : List (List Symbol) → List (List (ℕ × ℚ))
  | [] => []
  | r :: rs =>
    let m := matchesOnReel target r
    if m.isEmpty then [] else m :: collectReels target rs

/-- `reel_matches` as computed by `_evaluate_symbol` for a board: per-reel
match lists up to the first break, scanning at most `REEL_COUNT` reels. -/
def reelMatches (b : Board) (target : Symbol) : List (List (ℕ × ℚ)) :=
  collectReels target (b.take REEL_COUNT)

/-- `ways` accumulation of `_calculate_ways_and_multiplier` (`ways = 1; for
matches in reel_matches: ways *= len(matches)`). -/
def waysOf (rm : List (List (ℕ × ℚ))) : ℕ :=
  rm.foldl (fun acc m => acc * m.length) 1

/-- `WaysEvaluator._enumerate_way_multipliers`: recursively enumerate all
ways and sum their multiplier products, carrying the accumulated product
`acc` (`current_multiplier`). -/
def enumerateWayMultipliers : List (List (ℕ × ℚ)) → ℚ → ℚ
  | [], acc => acc
  | r :: rs, acc => (r.map (fun p => enumerateWayMultipliers rs (acc * p.2))).sum

/-- `WaysEvaluator._calculate_ways_and_multiplier`: returns `(ways, average
multiplier)`; `(0, 1)` on an empty `reel_matches`, and the average is
`total / ways` guarded by `ways > 0`. -/
def calculateWaysAndMultiplier (rm : List (List (ℕ × ℚ))) : ℕ × ℚ :=
  if rm.isEmpty then (0, 1)
  else
    let ways := waysOf rm
    let total := enumerateWayMultipliers rm 1
    (ways, if 0 < ways then total / (ways : ℚ) else 1)

/-- `WaysEvaluator._get_winning_positions`: every `(reel_idx, row_idx)` pair
appearing in `reel_matches`. -/
def getWinningPositions (rm : List (List (ℕ × ℚ))) : List (ℕ × ℕ) :=
  rm.enum.flatMap (fun p => p.2.map (fun q => (p.1, q.1)))

/-- The win dictionary returned by `WaysEvaluator._evaluate_symbol`. -/
structure WinRecord where
  symbol : Symbol
  count : ℕ
  ways : ℕ
  multiplier : ℚ
  basePayout : ℚ
  payout : ℚ
  positions : List (ℕ × ℕ)
deriving DecidableEq, Repr

/-- `min_match` of `_evaluate_symbol`: `2 if target_symbol == Symbol.H1 else
3`. -/
def minMatch (target : Symbol) : ℕ :=
  if target = Symbol.H1 then 2 else 3

/-- `WaysEvaluator._evaluate_symbol` (`ways_evaluator.py` lines 60-125):
returns `none` where the Python returns `None`, otherwise the win record
with `payout = base_payout * bet * ways * total_multiplier`. -/
def evaluateSymbol (b : Board) (bet : ℚ) (target : Symbol) : Option WinRecord :=
  let rm := reelMatches b target
  let matchCount := rm.length
  if matchCount < minMatch target then none
  else
    match PAYTABLE target matchCount with
    | none => none
    | some basePayout =>
      let wm := calculateWaysAndMultiplier rm
      let finalPayout := basePayout * bet * (wm.1 : ℚ) * wm.2
      some
        { symbol := target
          count := matchCount
          ways := wm.1
          multiplier := wm.2
          basePayout := basePayout
          payout := finalPayout
          positions := getWinningPositions rm }

/-- `WaysEvaluator.evaluate`: evaluate every payable symbol and keep the
wins. -/
def evaluate (b : Board) (bet : ℚ) : List WinRecord :=
  PAYTABLE_SYMBOLS.filterMap (evaluateSymbol b bet)

/-- All left-to-right paths through the per-reel match lists (the spec's
"every left-to-right path through the matched reels"): one cell chosen per
matched reel. -/
def allPaths : List (List (ℕ × ℚ)) → List (List (ℕ × ℚ))
  | [] => [[]]
  | r :: rs => r.flatMap (fun c => (allPaths rs).map (fun p => c :: p))

/-- Product of the per-cell multiplier contributions along one path. -/
def pathContribution (p : List (ℕ × ℚ)) : ℚ :=
  (p.map Prod.snd).prod

/-- Spec-side definition (`spec.md` §4.3 step 5): the sum, over every
left-to-right path, of that path's product of per-cell multiplier
contributions. -/
def pathSumSpec (rm : List (List (ℕ × ℚ))) : ℚ :=
  ((allPaths rm).map pathContribution).sum

/-- Concrete board of `spec.md` §8 ("Concrete scenario"): H1 on the first two
reels only, L1 on the last three. -/
def specBoard : Board :=
  [[.H1, .L2, .L3, .L4], [.H1, .L2, .L3, .L4],
   [.L1, .L2, .L3, .L4], [.L1, .L2, .L3, .L4], [.L1, .L2, .L3, .L4]]

/-- Board with an H1 chain running through a 2x wild and a 3x wild
(`test_multiplicative_wild_multipliers` in `test_math_sdk.py`). -/
def multBoard : Board :=
  [[.H1, .L2, .L2, .L2], [.W2X, .L2, .L2, .L2], [.W3X, .L2, .L2, .L2],
   [.L1, .L1, .L1, .L1], [.L1, .L1, .L1, .L1]]

/-- The win record the evaluator emits for H1 on `multBoard` at bet 1. -/
def multRec : WinRecord :=
  { symbol := .H1, count := 3, ways := 1, multiplier := 6, basePayout := 5,
    payout := 30, positions := [(0, 0), (1, 0), (2, 0)] }

/-- The win record the evaluator emits for H1 on `specBoard` at bet 1. -/
def specRec : WinRecord :=
  { symbol := .H1, count := 2, ways := 1, multiplier := 1, basePayout := 1,
    payout := 1, positions := [(0, 0), (1, 0)] }

/-- Board where reel 2 has zero matches for L1 while reels 1, 3, 4, 5 all
match (`spec.md` §8 chain-break scenario). -/
def chainBoard : Board :=
  [[.L1, .L1, .L1, .L1], [.G, .G, .G, .G],
   [.L1, .L1, .L1, .L1], [.L1, .L1, .L1, .L1], [.L1, .L1, .L1, .L1]]

/-- Full-screen H1 board: every cell of every reel is H1. -/
def fullH1Board : Board := List.replicate 5 (List.replicate 4 Symbol.H1)

/-- Board holding only collector symbols: no payable symbol matches
anywhere. -/
def allGBoard : Board := List.replicate 5 (List.replicate 4 Symbol.G)

/-- `GamePhase` enum from `gamestate.py`. -/
inductive GamePhase where
  | IDLE | SPINNING | REVEALING | EVALUATING | PAYING
deriving DecidableEq, Repr

/-- A win dict as serialized by `GameEngine._serialize_win`. -/
structure SerializedWin where
  symbol : String
  count : ℕ
  payout : ℚ
  ways : ℕ
  multiplier : ℚ
deriving DecidableEq, Repr

/-- Events appended by `GameState.emit_event` in `gamestate.py`, one
constructor per `event_type` / data shape used by the module.  The
wall-clock `timestamp` field is not modelled (pure I/O, never read by the
module). -/
inductive GEvent where
  | symbolTransformation (threshold : ℕ) (transformation : String) (collectorCount : ℕ)
  | infiniteBreach (active : Bool) (multiplier : ℕ)
  | collectorCollection (previousCount newCount collected : ℕ)
  | reveal (h1StackCount : ℕ) (triggerScreenShake : Bool)
  | win (totalWin : ℚ) (wins : List SerializedWin)
      (winningPositions : List (ℕ × ℕ)) (nonWinningDimmed : Bool)
deriving DecidableEq, Repr

/-- The `GameState` dataclass of `gamestate.py`.  `collector_count` is the
running collector counter; per-spin collector counts are non-negative, so it
is modelled as `ℕ`. -/
structure GState where
  collectorCount : ℕ
  currentBet : ℚ
  balance : ℚ
  phase : GamePhase
  freeSpinsRemaining : ℕ
  transformationLevel : ℕ
  infiniteBreachActive : Bool
  sessionId : String
  pendingEvents : List GEvent
deriving DecidableEq, Repr

/-- Default field values of the `GameState` dataclass. -/
def initialGState : GState :=
  { collectorCount := 0, currentBet := 1, balance := 1000, phase := .IDLE,
    freeSpinsRemaining := 0, transformationLevel := 0,
    infiniteBreachActive := false, sessionId := "", pendingEvents := [] }

/-- `GameState.emit_event`: append an event to the pending queue. -/
def GState.emitEvent (st : GState) (e : GEvent) : GState :=
  { st with pendingEvents := st.pendingEvents ++ [e] }

/-- `GameState.flush_events`: return the queue and clear it. -/
def GState.flushEvents (st : GState) : List GEvent × GState :=
  (st.pendingEvents, { st with pendingEvents := [] })

/-- `TRANSFORMATION_THRESHOLDS` from `game_config.py`, as
`sorted(TRANSFORMATION_THRESHOLDS.items())`. -/
def TRANSFORMATION_THRESHOLDS : List (ℕ × String) :=
  [(4, "H4_TO_H1"), (7, "H3_TO_H1"), (13, "H2_TO_H1"), (15, "INFINITE_BREACH")]

/-- One iteration of the first loop of
`GameState.update_transformation_level` (`gamestate.py` lines 79-95): fire
the threshold if the counter has reached it and it is above the level fixed
at loop entry (the loop never mutates `transformation_level` itself). -/
def fireThreshold (s : GState × List String) (p : ℕ × String) : GState × List String :=
  if p.1 ≤ s.1.collectorCount ∧ s.1.transformationLevel < p.1 then
    let st1 := s.1.emitEvent (.symbolTransformation p.1 p.2 s.1.collectorCount)
    let st2 :=
      if p.2 = "INFINITE_BREACH" then
        ({ st1 with infiniteBreachActive := true }).emitEvent (.infiniteBreach true 2)
      else st1
    (st2, s.2 ++ [p.2])
  else s

/-- Second loop of `update_transformation_level`: scan thresholds in
descending order and set the level to the first (highest) one the counter
has reached, leaving it unchanged when none is reached. -/
def levelScan (c fallback : ℕ) : List (ℕ × String) → ℕ
  | [] => fallback
  | p :: ps => if p.1 ≤ c then p.1 else levelScan c fallback ps

/-- `GameState.update_transformation_level`: fire newly crossed thresholds
(emitting `symbolTransformation`, and for `INFINITE_BREACH` also setting the
flag and emitting `infiniteBreach`), then move the level to the highest
crossed threshold.  Returns the updated state and `new_transformations`. -/
def updateTransformationLevel (st : GState) : GState × List String :=
  let s := TRANSFORMATION_THRESHOLDS.foldl fireThreshold (st, [])
  let newLevel :=
    levelScan s.1.collectorCount s.1.transformationLevel TRANSFORMATION_THRESHOLDS.reverse
  ({ s.1 with transformationLevel := newLevel }, s.2)

/-- `GameState.add_collectors`: add to the counter, emit a
`collectorCollection` event, then update the transformation level. -/
def addCollectors (st : GState) (count : ℕ) : GState :=
  let old := st.collectorCount
  let st1 := { st with collectorCount := old + count }
  let st2 := st1.emitEvent (.collectorCollection old st1.collectorCount count)
  (updateTransformationLevel st2).1

/-- A session fragment: fold `add_collectors` over the per-spin collector
counts. -/
def runAdds (st : GState) (adds : List ℕ) : GState :=
  adds.foldl addCollectors st

/-- Number of `symbolTransformation` events for threshold `t` in an event
list. -/
def transformCount (t : ℕ) (evts : List GEvent) : ℕ :=
  evts.countP (fun e =>
    match e with
    | .symbolTransformation th _ _ => th = t
    | _ => false)

/-- `get_active_transformations` from `game_config.py`: the transformations
whose threshold the collector count has reached. -/
def get_active_transformations (c : ℕ) : List String :=
  TRANSFORMATION_THRESHOLDS.filterMap (fun p => if p.1 ≤ c then some p.2 else none)

/-- Invariant tying the transformation level, the collector counter and the
emitted `symbolTransformation` events together. -/
def ThresholdInv (st : GState) : Prop :=
  st.transformationLevel ≤ st.collectorCount ∧
  st.transformationLevel ∈ ([0, 4, 7, 13, 15] : List ℕ) ∧
  ∀ p ∈ TRANSFORMATION_THRESHOLDS,
    transformCount p.1 st.pendingEvents ≤ 1 ∧
    (1 ≤ transformCount p.1 st.pendingEvents → p.1 ≤ st.transformationLevel)

/-- `DEFAULT_REEL_WEIGHTS` from `game_config.py`, in insertion order. -/
def DEFAULT_REEL_WEIGHTS : List (Symbol × ℤ) :=
  [(.H1, 2), (.H2, 4), (.H3, 5), (.H4, 6), (.L1, 8), (.L2, 10), (.L3, 12),
   (.L4, 14), (.L6, 16), (.W, 3), (.W2X, 1), (.W3X, 1), (.S, 2), (.G, 3)]

/-- `ReelGenerator._build_weighted_list` (`gamestate.py` lines 131-135):
Python `[symbol] * weight` yields the empty list for any weight `<= 0`
(hence `Int.toNat`), and `extend` concatenates. -/
def buildWeightedList (weights : List (Symbol × ℤ)) : List Symbol :=
  weights.foldl (fun acc p => acc ++ List.replicate p.2.toNat p.1) []

/-- The `reel_weights or DEFAULT_REEL_WEIGHTS` fallback of
`ReelGenerator.__init__` (`gamestate.py` line 128): Python `or` replaces a
falsy left operand, so both `None` and the EMPTY dict silently fall back to
the default weights; any nonempty dict is kept as-is, whatever its
weights. -/
def reelWeightsOf (reelWeights : Option (List (Symbol × ℤ))) : List (Symbol × ℤ) :=
  match reelWeights with
  | none => DEFAULT_REEL_WEIGHTS
  | some w => if w.isEmpty then DEFAULT_REEL_WEIGHTS else w

/-- `ReelGenerator.__init__` (`gamestate.py` lines 127-129): resolve the
fallback, store the weights, and build the weighted population.  There is
no validation and no failure path: construction always succeeds, and the
generator is its weighted population. -/
def mkReelGenerator (reelWeights : Option (List (Symbol × ℤ))) : List Symbol :=
  buildWeightedList (reelWeightsOf reelWeights)

/-- `random.choice(population)` with one ambient draw index: `none` exactly
when the population is empty (Python raises `IndexError` there). -/
def randomChoice (l : List Symbol) (d : ℕ) : Option Symbol :=
  if l.isEmpty then none else l[d % l.length]?

/-- `ReelGenerator.generate_spin`: draw `REEL_COUNT x ROWS_PER_REEL` cells,
one ambient draw per cell, row-major within the spin. -/
def generateSpin (weighted : List Symbol) (draws : ℕ → ℕ) : Option Board :=
  (List.range REEL_COUNT).mapM (fun r =>
    (List.range ROWS_PER_REEL).mapM (fun row =>
      randomChoice weighted (draws (ROWS_PER_REEL * r + row))))

/-- The cell `random.choice` returns on a nonempty population (the `getD`
default is never used there). -/
def drawCell (weighted : List Symbol) (d : ℕ) : Symbol :=
  weighted.getD (d % weighted.length) Symbol.H1

/-- The board `generate_spin` produces on a nonempty population. -/
def boardOf (weighted : List Symbol) (draws : ℕ → ℕ) : Board :=
  (List.range REEL_COUNT).map (fun r =>
    (List.range ROWS_PER_REEL).map (fun row =>
      drawCell weighted (draws (ROWS_PER_REEL * r + row))))

/-- The aggregate statistics dict returned by `validate_rtp`. -/
structure RtpResult where
  rtp : ℚ
  hitRate : ℚ
  totalWagered : ℚ
  totalWon : ℚ
  simulations : ℕ
deriving DecidableEq, Repr

/-- Per-spin win total: `sum(w["payout"] for w in wins)`. -/
def spinWinTotal (b : Board) (bet : ℚ) : ℚ :=
  ((evaluate b bet).map WinRecord.payout).sum

/-- The weighted population of the default generator `ReelGenerator()`
(`reel_weights = None`, so the `or` fallback selects
`DEFAULT_REEL_WEIGHTS`) used by `validate_rtp` and `GameEngine`. -/
def defaultWeightedSymbols : List Symbol := mkReelGenerator none

/-- `validate_rtp` (`ways_evaluator.py` lines 203-242).  The Python
signature is `validate_rtp(num_simulations, bet)`: there is NO seed
parameter, and the loop consumes the ambient global RNG — modelled as the
explicit stream `draws`, spin `k` consuming indices `20 k .. 20 k + 19` (20
`random.choice` calls per spin).  Returns `none` if a draw fails (never for
the default population). -/
def validateRtp (draws : ℕ → ℕ) (numSimulations : ℕ) (bet : ℚ) : Option RtpResult := do
  let wins ← (List.range numSimulations).mapM (fun k =>
    (generateSpin defaultWeightedSymbols (fun j => draws (20 * k + j))).map
      (fun b => spinWinTotal b bet))
  let totalWagered : ℚ := numSimulations * bet
  let totalWon := wins.sum
  let hitCount := wins.countP (fun w => 0 < w)
  pure
    { rtp := if 0 < totalWagered then totalWon / totalWagered else 0
      hitRate := if 0 < numSimulations then (hitCount : ℚ) / numSimulations else 0
      totalWagered := totalWagered
      totalWon := totalWon
      simulations := numSimulations }

/-- Board drawn by the constant ambient stream 61: index 61 of the default
population is L6, so every cell is L6. -/
def allL6Board : Board := List.replicate 5 (List.replicate 4 Symbol.L6)

/-- The single win record the evaluator emits on `allL6Board` at bet 1. -/
def l6Rec : WinRecord :=
  { symbol := .L6, count := 5, ways := 1024, multiplier := 1, basePayout := 8,
    payout := 8192,
    positions :=
      [(0, 0), (0, 1), (0, 2), (0, 3), (1, 0), (1, 1), (1, 2), (1, 3),
       (2, 0), (2, 1), (2, 2), (2, 3), (3, 0), (3, 1), (3, 2), (3, 3),
       (4, 0), (4, 1), (4, 2), (4, 3)] }

/-- Board drawn by the constant ambient stream 82: index 82 of the default
population is the scatter, so every cell is a scatter and nothing pays. -/
def allSBoard : Board := List.replicate 5 (List.replicate 4 Symbol.S)

/-- `freespin_triggers[self.freegame_type]` from
`games/meta_vault/game_config.py` line 129: scatter count to spins awarded
during free games (2+ scatters retrigger), 0 for counts outside the table
(`dict.get(scatter_count, 0)`). -/
def freespinTriggersFree : ℕ → ℕ
  | 2 => 5
  | 3 => 8
  | 4 => 12
  | 5 => 15
  | _ => 0

/-- `max_freespins = 125` from `games/meta_vault/game_config.py`. -/
def maxFreespins : ℕ := 125

/-- Free-spin session counters of the host framework state threaded through
`GameState.run_freespin`: `fs` spins played so far, `tot_fs` total spins
awarded, and whether the win cap has triggered. -/
structure FsState where
  fs : ℕ
  totFs : ℕ
  wincapTriggered : Bool
deriving DecidableEq, Repr

/-- Modelled from the spec: `update_freespin` of the host framework (not
under `src/`) advances the played-spin counter by one at the top of each
loop iteration, so the session ends when remaining free spins reach
zero. -/
def updateFreespin (st : FsState) : FsState :=
  { st with fs := st.fs + 1 }

/-- `GameState.update_fs_retrigger_amt` (`games/meta_vault/gamestate.py`
lines 103-127): look up the spins awarded for the scatter count; if
positive, add them to `tot_fs` and cap the total at `max_freespins`. -/
def updateFsRetriggerAmt (st : FsState) (scatterCount : ℕ) : FsState :=
  let add := freespinTriggersFree scatterCount
  if 0 < add then
    let t := st.totFs + add
    { st with totFs := if maxFreespins < t then maxFreespins else t }
  else st

/-- One iteration of the `while self.fs < self.tot_fs` loop of
`GameState.run_freespin` (`games/meta_vault/gamestate.py` lines 59-99),
driven by the environment observation for spin `i`: the scatter count on
the drawn board and whether the win cap is reached after the spin
(`check_fs_condition`, whose free-game minimum scatter count is 2, and
`get_wincap_triggered` are host-framework predicates not under `src/`,
modelled from the spec as oracles on the drawn board). -/
def fsSpin (env : ℕ → ℕ × Bool) (i : ℕ) (st : FsState) : FsState :=
  let st1 := updateFreespin st
  let ob := env i
  let st2 := if 2 ≤ ob.1 then updateFsRetriggerAmt st1 ob.1 else st1
  { st2 with wincapTriggered := ob.2 }

/-- The `run_freespin` loop with an explicit recursion bound (`C7` shows a
fuel of `maxFreespins` always suffices): spin while `fs < tot_fs`, breaking
immediately after a spin that triggers the win cap. -/
def runFreespinLoop (env : ℕ → ℕ × Bool) : ℕ → ℕ → FsState → FsState
  | 0, _, st => st
  | fuel + 1, i, st =>
    if st.fs < st.totFs then
      let st' := fsSpin env i st
      if st'.wincapTriggered then st' else runFreespinLoop env fuel (i + 1) st'
    else st

/-- The per-symbol substitution map `apply_transformations` builds from the
collector count (`game_override.py` lines 39-55): H4 upgrades at 4, H3 at
7, H2 at 13; `INFINITE_BREACH` at 15 adds no substitution. -/
def transformMapAt (c : ℕ) : Symbol → Option Symbol
  | .H4 => if 4 ≤ c then some Symbol.H1 else none
  | .H3 => if 7 ≤ c then some Symbol.H1 else none
  | .H2 => if 13 ≤ c then some Symbol.H1 else none
  | _ => none

/-- The `applied_transformations` list `apply_transformations` returns. -/
def appliedTransformations (c : ℕ) : List String :=
  (if 4 ≤ c then ["H4_TO_H1"] else []) ++
    (if 7 ≤ c then ["H3_TO_H1"] else []) ++
    (if 13 ≤ c then ["H2_TO_H1"] else []) ++
    (if 15 ≤ c then ["INFINITE_BREACH"] else [])

/-- `apply_transformations` from `game_override.py`: substitute every
mapped cell of (a copy of) the board, returning the transformed board and
the applied-transformation names. -/
def applyTransformations (reels : Board) (c : ℕ) : Board × List String :=
  (reels.map (fun reel => reel.map (fun s => (transformMapAt c s).getD s)),
    appliedTransformations c)

/-- Collector count of a spin: `sum(1 for reel ... for sym ... if sym ==
Symbol.G)` in `GameEngine.spin`. -/
def countCollectorsOnBoard (b : Board) : ℕ :=
  b.foldl (fun acc reel => acc + reel.countP (fun s => s = Symbol.G)) 0

/-- `GameEngine._count_h1_stacks`: number of reels holding 3 or more H1
symbols. -/
def countH1Stacks (b : Board) : ℕ :=
  b.countP (fun reel => 3 ≤ reel.countP (fun s => s = Symbol.H1))

/-- `GameEngine._serialize_win`. -/
def serializeWin (w : WinRecord) : SerializedWin :=
  { symbol := w.symbol.value, count := w.count, payout := w.payout,
    ways := w.ways, multiplier := w.multiplier }

/-- `GameEngine._get_winning_positions`: the set-union of all win
positions.  Python iterates a `set` (order unspecified); modelled as
first-occurrence deduplication. -/
def engineWinningPositions (wins : List WinRecord) : List (ℕ × ℕ) :=
  (wins.flatMap WinRecord.positions).dedup

/-- The `SpinResult` dataclass of `gamestate.py`. -/
structure SpinResultE where
  reels : Board
  originalReels : Board
  wins : List WinRecord
  totalWin : ℚ
  multiplier : ℚ
  collectorCount : ℕ
  transformationsApplied : List String
  events : List GEvent
deriving Repr

/-- `GameEngine.spin` (`gamestate.py` lines 156-237) as explicit state
passing: returns the exception-or-result and the post-call `GameState`.
`raise ValueError("Insufficient balance")` is the only `raise` in the body
and precedes every mutation, so the error branch returns the state
untouched.  The engine's default generator population is provably nonempty,
so board generation is total and realized by `boardOf`. -/
def spin (st : GState) (bet : ℚ) (draws : ℕ → ℕ) :
    Except String SpinResultE × GState :=
  if st.balance < bet then (Except.error "Insufficient balance", st)
  else
    let st1 := { st with balance := st.balance - bet, currentBet := bet,
                         phase := GamePhase.SPINNING }
    let originalReels := boardOf defaultWeightedSymbols draws
    let collectorsInSpin := countCollectorsOnBoard originalReels
    let st2 := if 0 < collectorsInSpin then addCollectors st1 collectorsInSpin else st1
    let tr := applyTransformations originalReels st2.collectorCount
    let st3 := { st2 with phase := GamePhase.EVALUATING }
    let wins0 := evaluate tr.1 bet
    let multiplier : ℚ := if st3.infiniteBreachActive then 2 else 1
    let wins :=
      if st3.infiniteBreachActive then
        wins0.map (fun w =>
          if w.symbol = Symbol.H1 then { w with payout := w.payout * 2 } else w)
      else wins0
    let totalWin := (wins.map WinRecord.payout).sum
    let h1Stacks := countH1Stacks tr.1
    let st4 := if 3 ≤ h1Stacks then st3.emitEvent (GEvent.reveal h1Stacks true) else st3
    let st5 :=
      if wins.isEmpty then st4
      else st4.emitEvent
        (GEvent.win totalWin (wins.map serializeWin) (engineWinningPositions wins) true)
    let st6 := { st5 with phase := GamePhase.PAYING }
    let st7 := { st6 with balance := st6.balance + totalWin }
    let flushed := st7.flushEvents
    let result : SpinResultE :=
      { reels := tr.1, originalReels := originalReels, wins := wins,
        totalWin := totalWin, multiplier := multiplier,
        collectorCount := st7.collectorCount,
        transformationsApplied := tr.2, events := flushed.1 }
    let st8 := { flushed.2 with phase := GamePhase.IDLE }
    (Except.ok result, st8)

/-! Helper lemmas about the evaluator. -/

theorem pathContribution_cons (c : ℕ × ℚ) (p : List (ℕ × ℚ)) :
    pathContribution (c :: p) = c.2 * pathContribution p := by
  simp [pathContribution]

theorem pathSumSpec_nil : pathSumSpec [] = 1 := by
  simp [pathSumSpec, allPaths, pathContribution]

theorem pathSumSpec_cons (r : List (ℕ × ℚ)) (rs : List (List (ℕ × ℚ))) :
    pathSumSpec (r :: rs) = (r.map (fun c => c.2 * pathSumSpec rs)).sum := by
  induction r with
  | nil => simp [pathSumSpec, allPaths]
  | cons c cs ih =>
    simp only [pathSumSpec, allPaths, List.flatMap_cons, List.map_append,
      List.sum_append, List.map_map, List.map_cons, List.sum_cons] at ih ⊢
    rw [ih]
    congr 1
    have : pathContribution ∘ (c :: ·) = fun p => c.2 * pathContribution p := by
      funext p
      simp [pathContribution_cons]
    rw [this, List.sum_map_mul_left]

/-- The recursive enumeration of `_enumerate_way_multipliers` computes the
accumulator times the spec's sum-over-paths-of-products. -/
theorem enumerateWayMultipliers_eq (rm : List (List (ℕ × ℚ))) (acc : ℚ) :
    enumerateWayMultipliers rm acc = acc * pathSumSpec rm := by
  induction rm generalizing acc with
  | nil => simp [enumerateWayMultipliers, pathSumSpec_nil]
  | cons r rs ih =>
    rw [pathSumSpec_cons]
    calc (r.map (fun p => enumerateWayMultipliers rs (acc * p.2))).sum
        = (r.map (fun p => acc * (p.2 * pathSumSpec rs))).sum := by
          simp only [ih, mul_assoc]
      _ = acc * (r.map (fun c => c.2 * pathSumSpec rs)).sum := by
          rw [List.sum_map_mul_left]

theorem waysOf_eq_prod (rm : List (List (ℕ × ℚ))) :
    waysOf rm = (rm.map List.length).prod := by
  rw [waysOf, List.prod_eq_foldl, List.foldl_map]

theorem collectReels_ne_nil (target : Symbol) (rs : List (List Symbol)) :
    ∀ m ∈ collectReels target rs, m ≠ [] := by
  induction rs with
  | nil => simp [collectReels]
  | cons r rs ih =>
    intro m hm
    simp only [collectReels] at hm
    split at hm
    · simp at hm
    · rename_i hne
      rcases List.mem_cons.mp hm with h | h
      · subst h
        simpa [List.isEmpty_iff] using hne
      · exact ih m h

theorem waysOf_pos (rm : List (List (ℕ × ℚ))) (h : ∀ m ∈ rm, m ≠ []) :
    0 < waysOf rm := by
  rw [waysOf_eq_prod]
  apply List.prod_pos
  intro a ha
  rcases List.mem_map.mp ha with ⟨m, hm, rfl⟩
  exact List.length_pos.mpr (h m hm)

theorem calculateWaysAndMultiplier_of_ne_nil (rm : List (List (ℕ × ℚ)))
    (hne : rm ≠ []) (hpos : 0 < waysOf rm) :
    calculateWaysAndMultiplier rm =
      (waysOf rm, pathSumSpec rm / (waysOf rm : ℚ)) := by
  simp only [calculateWaysAndMultiplier]
  rw [if_neg (by simpa [List.isEmpty_iff] using hne)]
  rw [if_pos hpos, enumerateWayMultipliers_eq, one_mul]

/-- Elimination form for `evaluateSymbol ... = some w`: recovers the
components of the emitted record. -/
theorem evaluateSymbol_some_elim {b : Board} {bet : ℚ} {S : Symbol} {w : WinRecord}
    (h : evaluateSymbol b bet S = some w) :
    minMatch S ≤ (reelMatches b S).length ∧
    ∃ base, PAYTABLE S (reelMatches b S).length = some base ∧
      w = { symbol := S
            count := (reelMatches b S).length
            ways := (calculateWaysAndMultiplier (reelMatches b S)).1
            multiplier := (calculateWaysAndMultiplier (reelMatches b S)).2
            basePayout := base
            payout := base * bet * ((calculateWaysAndMultiplier (reelMatches b S)).1 : ℚ) *
              (calculateWaysAndMultiplier (reelMatches b S)).2
            positions := getWinningPositions (reelMatches b S) } := by
  simp only [evaluateSymbol] at h
  split at h
  · exact absurd h (by simp)
  · rename_i hlt
    split at h
    · exact absurd h (by simp)
    · rename_i base hbase
      refine ⟨Nat.le_of_not_lt hlt, base, hbase, ?_⟩
      exact (Option.some_inj.mp h).symm

theorem reelMatches_ne_nil_of_some {b : Board} {bet : ℚ} {S : Symbol} {w : WinRecord}
    (h : evaluateSymbol b bet S = some w) : reelMatches b S ≠ [] := by
  rcases evaluateSymbol_some_elim h with ⟨hle, -⟩
  intro hnil
  rw [hnil] at hle
  simp only [List.length_nil] at hle
  have : 2 ≤ minMatch S := by
    unfold minMatch
    split <;> omega
  omega

theorem waysOf_reelMatches_pos {b : Board} {bet : ℚ} {S : Symbol} {w : WinRecord}
    (h : evaluateSymbol b bet S = some w) : 0 < waysOf (reelMatches b S) :=
  waysOf_pos _ (collectReels_ne_nil S _)

theorem evaluateSymbol_none_of_short {b : Board} {bet : ℚ} {sym : Symbol}
    (h : (reelMatches b sym).length < minMatch sym) :
    evaluateSymbol b bet sym = none := by
  simp only [evaluateSymbol]
  rw [if_pos h]

theorem evaluateSymbol_none_of_no_entry {b : Board} {bet : ℚ} {sym : Symbol}
    (h : PAYTABLE sym (reelMatches b sym).length = none) :
    evaluateSymbol b bet sym = none := by
  simp only [evaluateSymbol]
  split
  · rfl
  · rw [h]

theorem matchesAux_length (t : Symbol) (l : List Symbol) (i : ℕ) :
    (matchesAux t l i).length = l.countP (cellMatch t) := by
  induction l generalizing i with
  | nil => rfl
  | cons c cs ih =>
    simp only [matchesAux, cellMatch, List.countP_cons]
    by_cases h1 : c = t
    · simp [h1, ih]
    · by_cases h2 : WILD_SYMBOLS c && !NON_SUBSTITUTABLE t
      · simp [h1, h2, ih]
      · simp [h1, h2, ih]

theorem matchesAux_eq_nil (t : Symbol) (l : List Symbol) (i : ℕ)
    (h : ∀ c ∈ l, cellMatch t c = false) : matchesAux t l i = [] := by
  induction l generalizing i with
  | nil => rfl
  | cons c cs ih =>
    have hc := h c (List.mem_cons_self c cs)
    simp only [cellMatch, Bool.or_eq_false_iff, decide_eq_false_iff_not] at hc
    simp only [matchesAux, if_neg hc.1, hc.2, if_false]
    exact ih _ (fun x hx => h x (List.mem_cons_of_mem c hx))

theorem collectReels_eq_takeWhile (t : Symbol) (rs : List (List Symbol)) :
    collectReels t rs =
      (rs.takeWhile (fun r => !(matchesOnReel t r).isEmpty)).map (matchesOnReel t) := by
  induction rs with
  | nil => rfl
  | cons r rs ih =>
    simp only [collectReels, List.takeWhile_cons]
    by_cases hm : (matchesOnReel t r).isEmpty
    · simp [hm]
    · simp only [Bool.not_eq_true] at hm
      simp [hm, ih]

theorem collectReels_of_all_nonempty (t : Symbol) (rs : List (List Symbol))
    (h : ∀ r ∈ rs, (matchesOnReel t r).isEmpty = false) :
    collectReels t rs = rs.map (matchesOnReel t) := by
  rw [collectReels_eq_takeWhile]
  congr 1
  apply List.takeWhile_eq_self_iff.mpr
  intro r hr
  simp [h r hr]

theorem minMatch_two_or_three (sym : Symbol) : minMatch sym = 2 ∨ minMatch sym = 3 := by
  unfold minMatch
  split
  · exact Or.inl rfl
  · exact Or.inr rfl

/-- Concrete evaluation: on the §8 scenario board, H1 wins with match length
2, 1 way, multiplier 1 and payout 1 x bet. -/
theorem evalSpecBoard_H1 : evaluateSymbol specBoard 1 Symbol.H1 = some specRec := by
  have h1 : reelMatches specBoard Symbol.H1 = [[(0, 1)], [(0, 1)]] := by decide
  simp only [evaluateSymbol, h1]
  norm_num [minMatch, PAYTABLE, calculateWaysAndMultiplier, waysOf,
    enumerateWayMultipliers, getWinningPositions, specRec]
  rfl

/-- Concrete evaluation: on `multBoard`, the single H1 way runs through a 2x
wild and a 3x wild, and its multiplier is 6. -/
theorem evalMultBoard_H1 : evaluateSymbol multBoard 1 Symbol.H1 = some multRec := by
  have h1 : reelMatches multBoard Symbol.H1 = [[(0, 1)], [(0, 2)], [(0, 3)]] := by decide
  simp only [evaluateSymbol, h1]
  norm_num [minMatch, PAYTABLE, calculateWaysAndMultiplier, waysOf,
    enumerateWayMultipliers, getWinningPositions, multRec]
  rfl

/-- C1: every win record emitted by `WaysEvaluator._evaluate_symbol` has
payout = paytable(S, L) x bet x ways x average multiplier, where the average
multiplier is the sum over all left-to-right paths of the product of the
per-cell multiplier contributions, divided by the ways count; and a path
through a 2x wild and a 3x wild (all other cells exact matches) contributes
exactly 6 to that sum, never 5. -/
theorem C1_payout_formula (b : Board) (bet : ℚ) (sym : Symbol) (w : WinRecord)
    (h : evaluateSymbol b bet sym = some w) :
    (∃ base, PAYTABLE sym w.count = some base ∧
        w.multiplier = pathSumSpec (reelMatches b sym) / (w.ways : ℚ) ∧
        w.payout = base * bet * (w.ways : ℚ) *
          (pathSumSpec (reelMatches b sym) / (w.ways : ℚ))) ∧
    (∀ (i j : ℕ) (rest : List (ℕ × ℚ)), (∀ c ∈ rest, c.2 = 1) →
        pathContribution ((i, WILD_MULTIPLIERS Symbol.W2X) ::
          (j, WILD_MULTIPLIERS Symbol.W3X) :: rest) = 6 ∧ (6 : ℚ) ≠ 5) := by
  constructor
  · rcases evaluateSymbol_some_elim h with ⟨hle, base, hbase, hw⟩
    have hne : reelMatches b sym ≠ [] := reelMatches_ne_nil_of_some h
    have hpos : 0 < waysOf (reelMatches b sym) := waysOf_reelMatches_pos h
    have hcalc := calculateWaysAndMultiplier_of_ne_nil _ hne hpos
    refine ⟨base, ?_, ?_, ?_⟩
    · rw [hw]
      exact hbase
    · rw [hw]
      simp [hcalc]
    · rw [hw]
      simp [hcalc]
  · intro i j rest hrest
    refine ⟨?_, by norm_num⟩
    simp only [pathContribution_cons, WILD_MULTIPLIERS]
    have : pathContribution rest = 1 := by
      apply List.prod_eq_one
      intro x hx
      rcases List.mem_map.mp hx with ⟨c, hc, rfl⟩
      exact hrest c hc
    rw [this]
    norm_num

/-- C2: the ways count of every emitted win record is the product over the
matched reels of the number of matching rows; and on a well-formed board
where every cell of every reel matches the symbol, a payable symbol yields a
record with the maximum ways count `ROWS_PER_REEL ^ REEL_COUNT = 1024`. -/
theorem C2_ways_multiplicativity (b : Board) (bet : ℚ) (sym : Symbol) :
    (∀ w, evaluateSymbol b bet sym = some w →
        w.ways = ((reelMatches b sym).map List.length).prod) ∧
    (Board.WF b → (∀ reel ∈ b, ∀ c ∈ reel, cellMatch sym c = true) →
        sym ∈ PAYTABLE_SYMBOLS →
        ∃ w, evaluateSymbol b bet sym = some w ∧
          w.ways = ROWS_PER_REEL ^ REEL_COUNT ∧ ROWS_PER_REEL ^ REEL_COUNT = 1024) := by
  have hways : ∀ w, evaluateSymbol b bet sym = some w →
      w.ways = ((reelMatches b sym).map List.length).prod := by
    intro w h
    rcases evaluateSymbol_some_elim h with ⟨hle, base, hbase, hw⟩
    have hne : reelMatches b sym ≠ [] := reelMatches_ne_nil_of_some h
    have hpos : 0 < waysOf (reelMatches b sym) := waysOf_reelMatches_pos h
    have hcalc := calculateWaysAndMultiplier_of_ne_nil _ hne hpos
    rw [hw]
    simp [hcalc, waysOf_eq_prod]
  refine ⟨hways, ?_⟩
  rintro ⟨hb5, hrows⟩ hall hmem
  have hreel4 : ∀ reel ∈ b, (matchesOnReel sym reel).length = ROWS_PER_REEL := by
    intro reel hreel
    rw [matchesOnReel, matchesAux_length]
    rw [List.countP_eq_length.mpr]
    · rw [List.length_take, hrows reel hreel]
      exact min_self _
    · intro c hc
      exact hall reel hreel c (List.mem_of_mem_take hc)
  have hrm : reelMatches b sym = b.map (matchesOnReel sym) := by
    rw [reelMatches, REEL_COUNT] at *
    rw [← hb5, List.take_length]
    apply collectReels_of_all_nonempty
    intro r hr
    have h4 := hreel4 r hr
    rw [Bool.eq_false_iff]
    intro hemp
    rw [List.isEmpty_iff.mp hemp] at h4
    simp [ROWS_PER_REEL] at h4
  have hlen : (reelMatches b sym).length = 5 := by
    rw [hrm, List.length_map, hb5]
    rfl
  have hmin : ¬ (reelMatches b sym).length < minMatch sym := by
    rw [hlen]
    rcases minMatch_two_or_three sym with h' | h' <;> omega
  have hbase : ∃ base, PAYTABLE sym 5 = some base := by
    have : ∀ s ∈ PAYTABLE_SYMBOLS, (PAYTABLE s 5).isSome = true := by decide
    exact Option.isSome_iff_exists.mp (this sym hmem)
  obtain ⟨base, hbase⟩ := hbase
  have hsome : ∃ w, evaluateSymbol b bet sym = some w := by
    simp only [evaluateSymbol]
    rw [if_neg hmin, hlen, hbase]
    exact ⟨_, rfl⟩
  obtain ⟨w, hw⟩ := hsome
  refine ⟨w, hw, ?_, by decide⟩
  rw [hways w hw, hrm]
  have : ∀ x ∈ (b.map (matchesOnReel sym)).map List.length, x = ROWS_PER_REEL := by
    intro x hx
    rcases List.mem_map.mp hx with ⟨m, hm, rfl⟩
    rcases List.mem_map.mp hm with ⟨reel, hreel, rfl⟩
    exact hreel4 reel hreel
  rw [List.prod_eq_pow_card _ _ this]
  simp [hb5]

/-- C3: H1 yields a win record at match length 2 (witnessed by the concrete
scenario board), every other symbol yields no record for any match length
below 3, and for every symbol a match length below its minimum or one with
no paytable entry yields no record — and never an error, as
`evaluateSymbol` is a total function into `Option`. -/
theorem C3_minimum_match (b : Board) (bet : ℚ) (sym : Symbol) :
    (sym ≠ Symbol.H1 → (reelMatches b sym).length < 3 →
        evaluateSymbol b bet sym = none) ∧
    ((reelMatches b sym).length < minMatch sym → evaluateSymbol b bet sym = none) ∧
    (PAYTABLE sym (reelMatches b sym).length = none →
        evaluateSymbol b bet sym = none) ∧
    (∃ w, evaluateSymbol specBoard 1 Symbol.H1 = some w ∧ w.count = 2) := by
  refine ⟨?_, evaluateSymbol_none_of_short, evaluateSymbol_none_of_no_entry, ?_⟩
  · intro hne hlt
    apply evaluateSymbol_none_of_short
    rw [minMatch, if_neg hne]
    exact hlt
  · exact ⟨specRec, evalSpecBoard_H1, rfl⟩

/-- C4: the evaluator stops at the first reel with no match for the symbol:
`reel_matches` is exactly the longest all-matching prefix of the (at most
`REEL_COUNT`) reels, mapped through the per-reel match scan; and on the
concrete chain-break board (reel 2 empty for L1, reels 1, 3, 4, 5 all
matching) the match length is 1, so no win is emitted. -/
theorem C4_chain_break (b : Board) (sym : Symbol) :
    (reelMatches b sym =
        ((b.take REEL_COUNT).takeWhile
          (fun r => !(matchesOnReel sym r).isEmpty)).map (matchesOnReel sym)) ∧
    (reelMatches chainBoard Symbol.L1).length = 1 ∧
    (∀ bet : ℚ, evaluateSymbol chainBoard bet Symbol.L1 = none) := by
  refine ⟨collectReels_eq_takeWhile sym _, by decide, ?_⟩
  intro bet
  apply evaluateSymbol_none_of_short
  decide

/-- C5: every emitted win record has a ways count of at least 1, and a
symbol with zero matches anywhere on the board produces no record at all, so
the division by the ways count in the average multiplier never divides by
zero. -/
theorem C5_ways_at_least_one (b : Board) (bet : ℚ) (sym : Symbol) :
    (∀ w, evaluateSymbol b bet sym = some w → 1 ≤ w.ways) ∧
    ((∀ reel ∈ b, ∀ c ∈ reel, cellMatch sym c = false) →
        evaluateSymbol b bet sym = none) := by
  constructor
  · intro w h
    rcases evaluateSymbol_some_elim h with ⟨hle, base, hbase, hw⟩
    have hne : reelMatches b sym ≠ [] := reelMatches_ne_nil_of_some h
    have hpos : 0 < waysOf (reelMatches b sym) := waysOf_reelMatches_pos h
    have hcalc := calculateWaysAndMultiplier_of_ne_nil _ hne hpos
    rw [hw]
    simpa [hcalc] using hpos
  · intro hnone
    apply evaluateSymbol_none_of_short
    have hshort : (reelMatches b sym).length = 0 := by
      cases b with
      | nil => rfl
      | cons r rs =>
        have hm : matchesOnReel sym r = [] := by
          apply matchesAux_eq_nil
          intro c hc
          exact hnone r (List.mem_cons_self r rs) c (List.mem_of_mem_take hc)
        have htake : (r :: rs).take REEL_COUNT = r :: rs.take 4 := rfl
        rw [reelMatches, htake]
        simp [collectReels, hm]
    rw [hshort]
    rcases minMatch_two_or_three sym with h' | h' <;> omega

/-! Helper lemmas about the collector / transformation state machine. -/

theorem fireThreshold_fields (s : GState × List String) (p : ℕ × String) :
    (fireThreshold s p).1.collectorCount = s.1.collectorCount ∧
    (fireThreshold s p).1.transformationLevel = s.1.transformationLevel := by
  simp only [fireThreshold, GState.emitEvent]
  split
  · split <;> exact ⟨rfl, rfl⟩
  · exact ⟨rfl, rfl⟩

theorem fireThreshold_breach_mono (s : GState × List String) (p : ℕ × String)
    (h : s.1.infiniteBreachActive = true) :
    (fireThreshold s p).1.infiniteBreachActive = true := by
  simp only [fireThreshold, GState.emitEvent]
  split
  · split
    · rfl
    · exact h
  · exact h

theorem fireThreshold_count_self (s : GState × List String) (q : ℕ × String) :
    transformCount q.1 (fireThreshold s q).1.pendingEvents =
      transformCount q.1 s.1.pendingEvents +
        (if q.1 ≤ s.1.collectorCount ∧ s.1.transformationLevel < q.1 then 1 else 0) := by
  simp only [fireThreshold, GState.emitEvent]
  split
  · split <;> simp [transformCount, List.countP_append, List.countP_cons]
  · simp

theorem fireThreshold_count_ne (s : GState × List String) (q : ℕ × String) (t : ℕ)
    (h : q.1 ≠ t) :
    transformCount t (fireThreshold s q).1.pendingEvents =
      transformCount t s.1.pendingEvents := by
  simp only [fireThreshold, GState.emitEvent]
  split
  · split <;> simp [transformCount, List.countP_append, List.countP_cons, h]
  · rfl

theorem foldl_fireThreshold_fields (l : List (ℕ × String)) (s : GState × List String) :
    (l.foldl fireThreshold s).1.collectorCount = s.1.collectorCount ∧
    (l.foldl fireThreshold s).1.transformationLevel = s.1.transformationLevel := by
  induction l generalizing s with
  | nil => exact ⟨rfl, rfl⟩
  | cons p ps ih =>
    rw [List.foldl_cons]
    rcases ih (fireThreshold s p) with ⟨h1, h2⟩
    rcases fireThreshold_fields s p with ⟨g1, g2⟩
    exact ⟨h1.trans g1, h2.trans g2⟩

theorem foldl_fireThreshold_breach_mono (l : List (ℕ × String)) (s : GState × List String)
    (h : s.1.infiniteBreachActive = true) :
    (l.foldl fireThreshold s).1.infiniteBreachActive = true := by
  induction l generalizing s with
  | nil => exact h
  | cons p ps ih =>
    rw [List.foldl_cons]
    exact ih _ (fireThreshold_breach_mono s p h)

theorem foldl_fireThreshold_count_ne (l : List (ℕ × String)) (s : GState × List String)
    (t : ℕ) (h : ∀ q ∈ l, q.1 ≠ t) :
    transformCount t (l.foldl fireThreshold s).1.pendingEvents =
      transformCount t s.1.pendingEvents := by
  induction l generalizing s with
  | nil => rfl
  | cons q qs ih =>
    rw [List.foldl_cons]
    rw [ih (fireThreshold s q) (fun x hx => h x (List.mem_cons_of_mem q hx))]
    exact fireThreshold_count_ne s q t (h q (List.mem_cons_self q qs))

theorem foldl_fireThreshold_count (l : List (ℕ × String)) (s : GState × List String)
    (hpw : l.Pairwise (fun a b => a.1 ≠ b.1)) (p : ℕ × String) (hp : p ∈ l) :
    transformCount p.1 (l.foldl fireThreshold s).1.pendingEvents =
      transformCount p.1 s.1.pendingEvents +
        (if p.1 ≤ s.1.collectorCount ∧ s.1.transformationLevel < p.1 then 1 else 0) := by
  induction l generalizing s with
  | nil => cases hp
  | cons q qs ih =>
    rw [List.foldl_cons]
    rcases List.pairwise_cons.mp hpw with ⟨hq, hqs⟩
    rcases List.mem_cons.mp hp with rfl | hmem
    · rw [foldl_fireThreshold_count_ne qs (fireThreshold s p) p.1
        (fun x hx => (hq x hx).symm)]
      exact fireThreshold_count_self s p
    · rcases fireThreshold_fields s q with ⟨g1, g2⟩
      rw [ih (fireThreshold s q) hqs hmem, g1, g2]
      congr 1
      exact fireThreshold_count_ne s q p.1 (hq p hmem)

theorem levelScan_thresholds (c l : ℕ) :
    levelScan c l TRANSFORMATION_THRESHOLDS.reverse =
      if 15 ≤ c then 15 else if 13 ≤ c then 13
      else if 7 ≤ c then 7 else if 4 ≤ c then 4 else l := rfl

theorem updateTransformationLevel_state (st : GState) :
    (updateTransformationLevel st).1.collectorCount = st.collectorCount ∧
    (updateTransformationLevel st).1.transformationLevel =
      levelScan st.collectorCount st.transformationLevel
        TRANSFORMATION_THRESHOLDS.reverse := by
  simp only [updateTransformationLevel]
  rcases foldl_fireThreshold_fields TRANSFORMATION_THRESHOLDS (st, []) with ⟨h1, h2⟩
  exact ⟨h1, by rw [h1, h2]⟩

theorem updateTransformationLevel_count (st : GState) (p : ℕ × String)
    (hp : p ∈ TRANSFORMATION_THRESHOLDS) :
    transformCount p.1 (updateTransformationLevel st).1.pendingEvents =
      transformCount p.1 st.pendingEvents +
        (if p.1 ≤ st.collectorCount ∧ st.transformationLevel < p.1 then 1 else 0) := by
  simp only [updateTransformationLevel]
  exact foldl_fireThreshold_count TRANSFORMATION_THRESHOLDS (st, []) (by decide) p hp

theorem addCollectors_state (st : GState) (k : ℕ) :
    (addCollectors st k).collectorCount = st.collectorCount + k ∧
    (addCollectors st k).transformationLevel =
      levelScan (st.collectorCount + k) st.transformationLevel
        TRANSFORMATION_THRESHOLDS.reverse := by
  simp only [addCollectors, GState.emitEvent]
  exact updateTransformationLevel_state _

theorem addCollectors_count (st : GState) (k : ℕ) (p : ℕ × String)
    (hp : p ∈ TRANSFORMATION_THRESHOLDS) :
    transformCount p.1 (addCollectors st k).pendingEvents =
      transformCount p.1 st.pendingEvents +
        (if p.1 ≤ st.collectorCount + k ∧ st.transformationLevel < p.1 then 1 else 0) := by
  simp only [addCollectors, GState.emitEvent]
  rw [updateTransformationLevel_count _ p hp]
  congr 1
  simp [transformCount, List.countP_append, List.countP_cons]

theorem addCollectors_breach_mono (st : GState) (k : ℕ)
    (h : st.infiniteBreachActive = true) :
    (addCollectors st k).infiniteBreachActive = true := by
  simp only [addCollectors, GState.emitEvent, updateTransformationLevel]
  exact foldl_fireThreshold_breach_mono _ _ h

theorem addCollectors_inv {st : GState} (hinv : ThresholdInv st) (k : ℕ) :
    ThresholdInv (addCollectors st k) := by
  rcases hinv with ⟨hlec, hmem, hcnt⟩
  rcases addCollectors_state st k with ⟨hc, hl⟩
  have hmem0 : st.transformationLevel = 0 ∨ st.transformationLevel = 4 ∨
      st.transformationLevel = 7 ∨ st.transformationLevel = 13 ∨
      st.transformationLevel = 15 := by simpa using hmem
  refine ⟨?_, ?_, ?_⟩
  · rw [hc, hl, levelScan_thresholds]
    split_ifs <;> omega
  · rw [hl, levelScan_thresholds]
    split_ifs <;> simp_all
  · intro p hp
    have hcount := addCollectors_count st k p hp
    rcases hcnt p hp with ⟨hle1, hlev⟩
    have hp4 : p.1 = 4 ∨ p.1 = 7 ∨ p.1 = 13 ∨ p.1 = 15 := by
      fin_cases hp <;> simp
    constructor
    · rw [hcount]
      split_ifs with hfire
      · have : transformCount p.1 st.pendingEvents = 0 := by
          by_contra hne
          have h1 : 1 ≤ transformCount p.1 st.pendingEvents := Nat.one_le_iff_ne_zero.mpr hne
          have := hlev h1
          omega
        omega
      · omega
    · intro hone
      rw [hl, levelScan_thresholds]
      rw [hcount] at hone
      by_cases hfire : p.1 ≤ st.collectorCount + k ∧ st.transformationLevel < p.1
      · have hple : p.1 ≤ st.collectorCount + k := hfire.1
        split_ifs <;> omega
      · rw [if_neg hfire, Nat.add_zero] at hone
        have hpl : p.1 ≤ st.transformationLevel := hlev hone
        split_ifs <;> omega

theorem runAdds_inv (adds : List ℕ) {st : GState} (hinv : ThresholdInv st) :
    ThresholdInv (runAdds st adds) := by
  induction adds generalizing st with
  | nil => exact hinv
  | cons k ks ih => exact ih (addCollectors_inv hinv k)

theorem runAdds_collectorCount (adds : List ℕ) (st : GState) :
    (runAdds st adds).collectorCount = st.collectorCount + adds.sum := by
  induction adds generalizing st with
  | nil => simp [runAdds]
  | cons k ks ih =>
    simp only [runAdds, List.foldl_cons] at ih ⊢
    rw [ih, (addCollectors_state st k).1, List.sum_cons]
    omega

theorem runAdds_breach_mono (adds : List ℕ) (st : GState)
    (h : st.infiniteBreachActive = true) :
    (runAdds st adds).infiniteBreachActive = true := by
  induction adds generalizing st with
  | nil => exact h
  | cons k ks ih =>
    simp only [runAdds, List.foldl_cons] at ih ⊢
    exact ih _ (addCollectors_breach_mono st k h)

theorem get_active_transformations_mono {c c' : ℕ} (h : c ≤ c') :
    ∀ t ∈ get_active_transformations c, t ∈ get_active_transformations c' := by
  intro t ht
  simp only [get_active_transformations, List.mem_filterMap] at ht ⊢
  rcases ht with ⟨p, hp, hif⟩
  refine ⟨p, hp, ?_⟩
  split at hif
  · rename_i hle
    rw [if_pos (hle.trans h)]
    exact hif
  · cases hif

/-- C6: within one session each transformation threshold (4, 7, 13, 15)
emits its `symbolTransformation` notification at most once; the collector
counter only grows across a session, so a transformation active after some
spin stays active for every subsequent spin (and the Infinite Breach flag,
once set, is never cleared); and the counter progression 0 to 4 to 7 to 13
to 15 emits exactly four transformation notifications, one per threshold,
each exactly once. -/
theorem C6_thresholds_fire_once (adds more : List ℕ) (st : GState) :
    (∀ p ∈ TRANSFORMATION_THRESHOLDS,
        transformCount p.1 (runAdds initialGState adds).pendingEvents ≤ 1) ∧
    (∀ t ∈ get_active_transformations st.collectorCount,
        t ∈ get_active_transformations (runAdds st more).collectorCount) ∧
    (st.infiniteBreachActive = true → (runAdds st more).infiniteBreachActive = true) ∧
    (∀ p ∈ TRANSFORMATION_THRESHOLDS,
        transformCount p.1 (runAdds initialGState [4, 3, 6, 2]).pendingEvents = 1) := by
  refine ⟨?_, ?_, runAdds_breach_mono more st, by decide⟩
  · have hinv : ThresholdInv initialGState := ⟨by decide, by decide, by decide⟩
    exact fun p hp => ((runAdds_inv adds hinv).2.2 p hp).1
  · apply get_active_transformations_mono
    rw [runAdds_collectorCount]
    omega

/-- Witness for C6: a state with 15 collectors and the breach flag set keeps
all four transformations active and the flag set after a further spin, and
the 0 to 4 to 7 to 13 to 15 progression fires each threshold exactly once. -/
theorem C6_thresholds_fire_once_witness :
    ("H4_TO_H1" ∈ get_active_transformations
        (runAdds initialGState [15]).collectorCount ∧
      (runAdds initialGState [15]).infiniteBreachActive = true) ∧
    ("H4_TO_H1" ∈ get_active_transformations
        (runAdds (runAdds initialGState [15]) [1]).collectorCount ∧
      (runAdds (runAdds initialGState [15]) [1]).infiniteBreachActive = true ∧
      ∀ p ∈ TRANSFORMATION_THRESHOLDS,
        transformCount p.1 (runAdds initialGState [4, 3, 6, 2]).pendingEvents = 1) :=
  ⟨⟨by decide, by decide⟩,
    (C6_thresholds_fire_once [4, 3, 6, 2] [1] (runAdds initialGState [15])).2.1
      "H4_TO_H1" (by decide),
    (C6_thresholds_fire_once [4, 3, 6, 2] [1] (runAdds initialGState [15])).2.2.1
      (by decide),
    (C6_thresholds_fire_once [4, 3, 6, 2] [1] (runAdds initialGState [15])).2.2.2⟩

/-! Helper lemmas about the reel generator. -/

theorem buildWeightedList_eq_flatMap (weights : List (Symbol × ℤ)) :
    buildWeightedList weights =
      weights.flatMap (fun p => List.replicate p.2.toNat p.1) := by
  suffices h : ∀ acc : List Symbol,
      weights.foldl (fun acc p => acc ++ List.replicate p.2.toNat p.1) acc =
        acc ++ weights.flatMap (fun p => List.replicate p.2.toNat p.1) by
    simpa [buildWeightedList] using h []
  induction weights with
  | nil => intro acc; simp
  | cons p ps ih =>
    intro acc
    simp only [List.foldl_cons, List.flatMap_cons, ih, List.append_assoc]

theorem randomChoice_eq_some {l : List Symbol} (h : l ≠ []) (d : ℕ) :
    randomChoice l d = some (drawCell l d) := by
  have hlen : 0 < l.length := List.length_pos.mpr h
  have hmod : d % l.length < l.length := Nat.mod_lt d hlen
  rw [randomChoice, if_neg (by simpa [List.isEmpty_iff] using h)]
  rw [List.getElem?_eq_getElem hmod, drawCell, List.getD_eq_getElem _ _ hmod]

theorem mapM_eq_some_map {α β : Type} (l : List α) (f : α → Option β) (g : α → β)
    (h : ∀ x ∈ l, f x = some (g x)) : l.mapM f = some (l.map g) := by
  induction l with
  | nil => rfl
  | cons a as ih =>
    rw [List.mapM_cons, h a (List.mem_cons_self a as),
      ih (fun x hx => h x (List.mem_cons_of_mem a hx))]
    rfl

theorem generateSpin_eq_some {weighted : List Symbol} (h : weighted ≠ [])
    (draws : ℕ → ℕ) :
    generateSpin weighted draws = some (boardOf weighted draws) := by
  apply mapM_eq_some_map
  intro r hr
  apply mapM_eq_some_map
  intro row hrow
  exact randomChoice_eq_some h _

theorem boardOf_WF (weighted : List Symbol) (draws : ℕ → ℕ) :
    Board.WF (boardOf weighted draws) := by
  constructor
  · simp [boardOf, REEL_COUNT]
  · intro reel hreel
    rcases List.mem_map.mp hreel with ⟨r, hr, rfl⟩
    simp [ROWS_PER_REEL]

theorem generateSpin_empty (draws : ℕ → ℕ) : generateSpin [] draws = none := rfl

theorem reelWeightsOf_some_ne_nil {w : List (Symbol × ℤ)} (h : w ≠ []) :
    reelWeightsOf (some w) = w := by
  simp only [reelWeightsOf]
  rw [if_neg (by simpa [List.isEmpty_iff] using h)]

theorem buildWeightedList_eq_nil (weights : List (Symbol × ℤ))
    (h : ∀ p ∈ weights, p.2 ≤ 0) : buildWeightedList weights = [] := by
  rw [buildWeightedList_eq_flatMap]
  apply List.flatMap_eq_nil_iff.mpr
  intro p hp
  have hp0 := h p hp
  rw [List.replicate_eq_nil_iff]
  omega

theorem buildWeightedList_ne_nil (weights : List (Symbol × ℤ))
    (hne : weights ≠ []) (hpos : ∀ p ∈ weights, 0 < p.2) :
    buildWeightedList weights ≠ [] := by
  rw [buildWeightedList_eq_flatMap]
  cases weights with
  | nil => exact absurd rfl hne
  | cons p ps =>
    simp only [List.flatMap_cons]
    intro hcontra
    rcases List.append_eq_nil.mp hcontra with ⟨h1, h2⟩
    have hp := hpos p (List.mem_cons_self p ps)
    rw [List.replicate_eq_nil_iff] at h1
    omega

/-- C8 counterexample: `ReelGenerator.__init__` rejects nothing.  The
malformed distribution with a single weight of 0 — a nonempty, hence
truthy, dict that escapes the `or DEFAULT_REEL_WEIGHTS` fallback —
constructs a generator whose weighted population is the concrete value
`[]`, and the failure instead surfaces on a per-draw basis: the first
`generate_spin` fails (`random.choice` of an empty population raises
`IndexError`).  The empty distribution is not rejected at construction
either: being falsy, it silently falls back to the default weights at
construction and every draw succeeds. -/
theorem C8_counterexample :
    (mkReelGenerator (some [(Symbol.H1, 0)]) = [] ∧
      generateSpin (mkReelGenerator (some [(Symbol.H1, 0)])) (fun _ => 0) = none) ∧
    (mkReelGenerator (some []) = buildWeightedList DEFAULT_REEL_WEIGHTS ∧
      ∃ b, generateSpin (mkReelGenerator (some [])) (fun _ => 0) = some b) := by
  refine ⟨⟨rfl, rfl⟩, ⟨rfl, ?_⟩⟩
  exact ⟨boardOf (mkReelGenerator (some [])) (fun _ => 0),
    generateSpin_eq_some (by decide) _⟩

/-- C8 (amended): `ReelGenerator` construction never rejects a
distribution.  An empty distribution is falsy in Python, so at construction
it silently falls back to `DEFAULT_REEL_WEIGHTS` and every subsequent draw
succeeds; a nonempty distribution whose weights are all `<= 0` constructs
successfully but yields an empty weighted population, so every draw fails
(at draw time, not construction); and a well-formed distribution (nonempty,
every weight a positive integer) constructs successfully and every
subsequent draw succeeds, producing a well-formed 5x4 board. -/
theorem C8_construction_validation (weights : List (Symbol × ℤ)) (draws : ℕ → ℕ) :
    (mkReelGenerator (some []) = buildWeightedList DEFAULT_REEL_WEIGHTS ∧
      ∃ b, generateSpin (mkReelGenerator (some [])) draws = some b ∧ Board.WF b) ∧
    (weights ≠ [] → (∀ p ∈ weights, p.2 ≤ 0) →
      generateSpin (mkReelGenerator (some weights)) draws = none) ∧
    (weights ≠ [] → (∀ p ∈ weights, 0 < p.2) →
      ∃ b, generateSpin (mkReelGenerator (some weights)) draws = some b ∧ Board.WF b) := by
  refine ⟨⟨rfl, ?_⟩, ?_, ?_⟩
  · exact ⟨boardOf (mkReelGenerator (some [])) draws,
      generateSpin_eq_some (by decide) draws, boardOf_WF _ _⟩
  · intro hne hle
    rw [mkReelGenerator, reelWeightsOf_some_ne_nil hne, buildWeightedList_eq_nil weights hle]
    exact generateSpin_empty draws
  · intro hne hpos
    have hpop : mkReelGenerator (some weights) ≠ [] := by
      rw [mkReelGenerator, reelWeightsOf_some_ne_nil hne]
      exact buildWeightedList_ne_nil weights hne hpos
    exact ⟨boardOf (mkReelGenerator (some weights)) draws,
      generateSpin_eq_some hpop draws, boardOf_WF _ _⟩

/-- Witness for C8 at the zero-weight distribution (malformed, fails per
draw) and at the default reel weights (well-formed, draws succeed). -/
theorem C8_construction_validation_witness :
    (([(Symbol.H1, 0)] : List (Symbol × ℤ)) ≠ [] ∧
      (∀ p ∈ ([(Symbol.H1, 0)] : List (Symbol × ℤ)), p.2 ≤ 0) ∧
      generateSpin (mkReelGenerator (some [(Symbol.H1, 0)])) (fun _ => 0) = none) ∧
    (DEFAULT_REEL_WEIGHTS ≠ [] ∧ (∀ p ∈ DEFAULT_REEL_WEIGHTS, 0 < p.2) ∧
      ∃ b, generateSpin (mkReelGenerator (some DEFAULT_REEL_WEIGHTS)) (fun _ => 0) = some b ∧
        Board.WF b) :=
  ⟨⟨by decide, by decide,
      (C8_construction_validation [(Symbol.H1, 0)] (fun _ => 0)).2.1
        (by decide) (by decide)⟩,
    by decide, by decide,
    (C8_construction_validation DEFAULT_REEL_WEIGHTS (fun _ => 0)).2.2
      (by decide) (by decide)⟩

/-! Helper lemmas about the simulation harness. -/

theorem sum_map_const_rat {α : Type} (l : List α) (v : ℚ) :
    (l.map (fun _ => v)).sum = l.length * v := by
  induction l with
  | nil => simp
  | cons a as ih =>
    simp only [List.map_cons, List.sum_cons, ih, List.length_cons]
    push_cast
    ring

theorem enumerateWayMultipliers_all_one (rm : List (List (ℕ × ℚ)))
    (h : ∀ m ∈ rm, ∀ c ∈ m, c.2 = 1) (acc : ℚ) :
    enumerateWayMultipliers rm acc = acc * (waysOf rm : ℚ) := by
  induction rm generalizing acc with
  | nil => simp [enumerateWayMultipliers, waysOf]
  | cons r rs ih =>
    have hr : ∀ c ∈ r, c.2 = (1 : ℚ) := h r (List.mem_cons_self r rs)
    have hrs : ∀ m ∈ rs, ∀ c ∈ m, c.2 = 1 :=
      fun m hm => h m (List.mem_cons_of_mem r hm)
    simp only [enumerateWayMultipliers]
    have hmap : r.map (fun p => enumerateWayMultipliers rs (acc * p.2)) =
        r.map (fun _ => acc * (waysOf rs : ℚ)) := by
      apply List.map_congr_left
      intro c hc
      rw [hr c hc, mul_one, ih hrs]
    rw [hmap, sum_map_const_rat]
    have hcons : waysOf (r :: rs) = r.length * waysOf rs := by
      rw [waysOf_eq_prod, waysOf_eq_prod, List.map_cons, List.prod_cons]
    rw [hcons]
    push_cast
    ring

theorem evalAllL6 : evaluateSymbol allL6Board 1 Symbol.L6 = some l6Rec := by
  have h1 : reelMatches allL6Board Symbol.L6 =
      List.replicate 5 [(0, 1), (1, 1), (2, 1), (3, 1)] := by decide
  have hways :
      waysOf (List.replicate 5 [((0 : ℕ), (1 : ℚ)), (1, 1), (2, 1), (3, 1)]) = 1024 := by
    decide
  have henum : enumerateWayMultipliers
      (List.replicate 5 [((0 : ℕ), (1 : ℚ)), (1, 1), (2, 1), (3, 1)]) 1 = 1024 := by
    rw [enumerateWayMultipliers_all_one]
    · rw [hways]
      norm_num
    · intro m hm c hc
      rcases List.eq_of_mem_replicate hm with rfl
      fin_cases hc <;> rfl
  have hcalc : calculateWaysAndMultiplier
      (List.replicate 5 [((0 : ℕ), (1 : ℚ)), (1, 1), (2, 1), (3, 1)]) = (1024, 1) := by
    simp only [calculateWaysAndMultiplier]
    rw [if_neg (by decide), hways, henum]
    norm_num
  have hpos : getWinningPositions
      (List.replicate 5 [((0 : ℕ), (1 : ℚ)), (1, 1), (2, 1), (3, 1)]) = l6Rec.positions := by
    decide
  have hmin : minMatch Symbol.L6 = 3 := rfl
  have hpay : PAYTABLE Symbol.L6 5 = some 8 := rfl
  simp only [evaluateSymbol, h1, List.length_replicate, hmin, hpay, hcalc, hpos]
  norm_num [l6Rec]

theorem evaluateAllL6 : evaluate allL6Board 1 = [l6Rec] := by
  simp only [evaluate, PAYTABLE_SYMBOLS, List.filterMap_cons, List.filterMap_nil,
    (by decide : evaluateSymbol allL6Board 1 Symbol.H1 = none),
    (by decide : evaluateSymbol allL6Board 1 Symbol.H2 = none),
    (by decide : evaluateSymbol allL6Board 1 Symbol.H3 = none),
    (by decide : evaluateSymbol allL6Board 1 Symbol.H4 = none),
    (by decide : evaluateSymbol allL6Board 1 Symbol.L1 = none),
    (by decide : evaluateSymbol allL6Board 1 Symbol.L2 = none),
    (by decide : evaluateSymbol allL6Board 1 Symbol.L3 = none),
    (by decide : evaluateSymbol allL6Board 1 Symbol.L4 = none),
    evalAllL6]

theorem evaluateAllS : evaluate allSBoard 1 = [] := by decide

theorem spinWinTotal_allL6 : spinWinTotal allL6Board 1 = 8192 := by
  rw [spinWinTotal, evaluateAllL6]
  simp [l6Rec]

theorem spinWinTotal_allS : spinWinTotal allSBoard 1 = 0 := by
  rw [spinWinTotal, evaluateAllS]
  rfl

theorem validateRtp_const61 : validateRtp (fun _ => 61) 1 1 =
    some { rtp := 8192, hitRate := 1, totalWagered := 1, totalWon := 8192,
           simulations := 1 } := by
  have hgen : generateSpin defaultWeightedSymbols
      (fun j => (fun _ : ℕ => (61 : ℕ)) (20 * 0 + j)) = some allL6Board := by
    rw [generateSpin_eq_some (by decide)]
    decide
  simp only [validateRtp, List.range_succ, List.range_zero, List.nil_append,
    List.mapM_cons, List.mapM_nil, hgen, Option.map_some', Option.map_some,
    Option.bind_eq_bind, Option.bind_some, Option.some_bind, Option.pure_def,
    List.sum_cons, List.sum_nil, List.countP_cons, List.countP_nil,
    spinWinTotal_allL6]
  norm_num [decide_eq_true_eq]

theorem validateRtp_const82 : validateRtp (fun _ => 82) 1 1 =
    some { rtp := 0, hitRate := 0, totalWagered := 1, totalWon := 0,
           simulations := 1 } := by
  have hgen : generateSpin defaultWeightedSymbols
      (fun j => (fun _ : ℕ => (82 : ℕ)) (20 * 0 + j)) = some allSBoard := by
    rw [generateSpin_eq_some (by decide)]
    decide
  simp only [validateRtp, List.range_succ, List.range_zero, List.nil_append,
    List.mapM_cons, List.mapM_nil, hgen, Option.map_some', Option.map_some,
    Option.bind_eq_bind, Option.bind_some, Option.some_bind, Option.pure_def,
    List.sum_cons, List.sum_nil, List.countP_cons, List.countP_nil,
    spinWinTotal_allS]
  norm_num [decide_eq_true_eq]

theorem mapM_option_congr {α β : Type} (l : List α) (f g : α → Option β)
    (h : ∀ x ∈ l, f x = g x) : l.mapM f = l.mapM g := by
  induction l with
  | nil => rfl
  | cons a as ih =>
    simp only [List.mapM_cons, h a (List.mem_cons_self a as),
      ih (fun x hx => h x (List.mem_cons_of_mem a hx))]

theorem generateSpin_congr (w : List Symbol) (d1 d2 : ℕ → ℕ)
    (h : ∀ j < 20, d1 j = d2 j) :
    generateSpin w d1 = generateSpin w d2 := by
  apply mapM_option_congr
  intro r hr
  apply mapM_option_congr
  intro row hrow
  have hr5 : r < 5 := by simpa [REEL_COUNT] using List.mem_range.mp hr
  have hrow4 : row < 4 := by simpa [ROWS_PER_REEL] using List.mem_range.mp hrow
  have hlt : ROWS_PER_REEL * r + row < 20 := by
    simp only [ROWS_PER_REEL]
    omega
  rw [h _ hlt]

/-- C9 counterexample: `validate_rtp` accepts only `(num_simulations, bet)`
— it has no seed parameter and reads the ambient global RNG — so two runs
with identical arguments (spin count 1, bet 1, same configuration) do not
determine the aggregate output: under ambient draw stream 61 the run
returns RTP 8192, under stream 82 it returns RTP 0. -/
theorem C9_counterexample :
    validateRtp (fun _ => 61) 1 1 ≠ validateRtp (fun _ => 82) 1 1 := by
  rw [validateRtp_const61, validateRtp_const82]
  intro h
  have hr : (8192 : ℚ) = 0 := congrArg RtpResult.rtp (Option.some.inj h)
  norm_num at hr

/-- C9 (amended): `validate_rtp` accepts no explicit seed; determinism holds
only relative to the ambient RNG stream: two runs whose streams agree on the
`20 x n` consumed draws (as a fixed seed would ensure if one existed)
produce identical aggregate output — the same RTP, hit rate, total wagered
and total won. -/
theorem C9_seed_determinism (s1 s2 : ℕ → ℕ) (n : ℕ) (bet : ℚ)
    (h : ∀ i < 20 * n, s1 i = s2 i) :
    validateRtp s1 n bet = validateRtp s2 n bet := by
  simp only [validateRtp]
  have hmm : (List.range n).mapM (fun k =>
      (generateSpin defaultWeightedSymbols (fun j => s1 (20 * k + j))).map
        (fun b => spinWinTotal b bet)) =
      (List.range n).mapM (fun k =>
      (generateSpin defaultWeightedSymbols (fun j => s2 (20 * k + j))).map
        (fun b => spinWinTotal b bet)) := by
    apply mapM_option_congr
    intro k hk
    have hkn : k < n := List.mem_range.mp hk
    congr 1
    apply generateSpin_congr
    intro j hj
    apply h
    omega
  rw [hmm]

/-- Witness for C9 at two streams that agree on the consumed prefix. -/
theorem C9_seed_determinism_witness :
    (∀ i < 20 * 1, (fun _ : ℕ => (61 : ℕ)) i = (fun i : ℕ => if i < 25 then 61 else 99) i) ∧
    validateRtp (fun _ => 61) 1 1 = validateRtp (fun i => if i < 25 then 61 else 99) 1 1 :=
  ⟨by decide,
    C9_seed_determinism (fun _ => 61) (fun i => if i < 25 then 61 else 99) 1 1 (by decide)⟩

/-- Witness for C1 at the concrete wild-multiplier board. -/
theorem C1_payout_formula_witness :
    evaluateSymbol multBoard 1 Symbol.H1 = some multRec ∧
    ((∃ base, PAYTABLE Symbol.H1 multRec.count = some base ∧
        multRec.multiplier = pathSumSpec (reelMatches multBoard Symbol.H1) / (multRec.ways : ℚ) ∧
        multRec.payout = base * 1 * (multRec.ways : ℚ) *
          (pathSumSpec (reelMatches multBoard Symbol.H1) / (multRec.ways : ℚ))) ∧
      (∀ (i j : ℕ) (rest : List (ℕ × ℚ)), (∀ c ∈ rest, c.2 = 1) →
          pathContribution ((i, WILD_MULTIPLIERS Symbol.W2X) ::
            (j, WILD_MULTIPLIERS Symbol.W3X) :: rest) = 6 ∧ (6 : ℚ) ≠ 5)) :=
  ⟨evalMultBoard_H1, C1_payout_formula multBoard 1 Symbol.H1 multRec evalMultBoard_H1⟩

/-- Witness for C2 at the full-screen H1 board. -/
theorem C2_ways_multiplicativity_witness :
    (Board.WF fullH1Board ∧
      (∀ reel ∈ fullH1Board, ∀ c ∈ reel, cellMatch Symbol.H1 c = true) ∧
      Symbol.H1 ∈ PAYTABLE_SYMBOLS) ∧
    (∃ w, evaluateSymbol fullH1Board 1 Symbol.H1 = some w ∧
      w.ways = ROWS_PER_REEL ^ REEL_COUNT ∧ ROWS_PER_REEL ^ REEL_COUNT = 1024) :=
  ⟨⟨⟨by decide, by decide⟩, by decide, by decide⟩,
    (C2_ways_multiplicativity fullH1Board 1 Symbol.H1).2 ⟨by decide, by decide⟩
      (by decide) (by decide)⟩

/-- Witness for C3 at the chain-break board for the non-top-tier symbol
L1. -/
theorem C3_minimum_match_witness :
    (Symbol.L1 ≠ Symbol.H1 ∧ (reelMatches chainBoard Symbol.L1).length < 3) ∧
    evaluateSymbol chainBoard 1 Symbol.L1 = none :=
  ⟨⟨by decide, by decide⟩,
    (C3_minimum_match chainBoard 1 Symbol.L1).1 (by decide) (by decide)⟩

/-- Witness for C5: a concretely emitted record has at least one way, and a
board with no matching cells for L1 yields no record. -/
theorem C5_ways_at_least_one_witness :
    1 ≤ specRec.ways ∧
    ((∀ reel ∈ allGBoard, ∀ c ∈ reel, cellMatch Symbol.L1 c = false) ∧
      evaluateSymbol allGBoard 1 Symbol.L1 = none) :=
  ⟨(C5_ways_at_least_one specBoard 1 Symbol.H1).1 specRec evalSpecBoard_H1,
    by decide,
    (C5_ways_at_least_one allGBoard 1 Symbol.L1).2 (by decide)⟩

/-! Helper lemmas about the free-spin session. -/

theorem updateFsRetriggerAmt_totFs (st : FsState) (s : ℕ)
    (h : st.totFs ≤ maxFreespins) :
    (updateFsRetriggerAmt st s).totFs =
      min (st.totFs + freespinTriggersFree s) maxFreespins := by
  simp only [updateFsRetriggerAmt]
  split_ifs with h1 h2
  all_goals try dsimp only
  all_goals omega

theorem updateFsRetriggerAmt_fs (st : FsState) (s : ℕ) :
    (updateFsRetriggerAmt st s).fs = st.fs := by
  simp only [updateFsRetriggerAmt]
  split_ifs <;> rfl

theorem fsSpin_fs (env : ℕ → ℕ × Bool) (i : ℕ) (st : FsState) :
    (fsSpin env i st).fs = st.fs + 1 := by
  simp only [fsSpin]
  split_ifs
  · rw [updateFsRetriggerAmt_fs]
    rfl
  · rfl

theorem fsSpin_totFs_le (env : ℕ → ℕ × Bool) (i : ℕ) (st : FsState)
    (h : st.totFs ≤ maxFreespins) :
    (fsSpin env i st).totFs ≤ maxFreespins := by
  simp only [fsSpin]
  split_ifs with hsc
  · rw [updateFsRetriggerAmt_totFs (updateFreespin st) _
      (show (updateFreespin st).totFs ≤ maxFreespins from h)]
    omega
  · exact h

theorem runFreespinLoop_spec (env : ℕ → ℕ × Bool) :
    ∀ (fuel i : ℕ) (st : FsState), st.totFs ≤ maxFreespins →
      maxFreespins ≤ st.fs + fuel →
      (runFreespinLoop env fuel i st).totFs ≤ maxFreespins ∧
      ((runFreespinLoop env fuel i st).totFs ≤ (runFreespinLoop env fuel i st).fs ∨
        (runFreespinLoop env fuel i st).wincapTriggered = true) := by
  intro fuel
  induction fuel with
  | zero =>
    intro i st h1 h2
    simp only [runFreespinLoop]
    exact ⟨h1, Or.inl (by omega)⟩
  | succ fuel ih =>
    intro i st h1 h2
    simp only [runFreespinLoop]
    split_ifs with hlt hw
    · exact ⟨fsSpin_totFs_le env i st h1, Or.inr hw⟩
    · apply ih
      · exact fsSpin_totFs_le env i st h1
      · rw [fsSpin_fs]
        omega
    · exact ⟨h1, Or.inl (by omega)⟩

/-- C7: every free-spin bonus session terminates.  The running total is
additive across retriggers but capped at the fixed maximum of 125
(`max_freespins`); starting from any initial award within the cap, the loop
reaches, within 125 iterations, a state where either the remaining free
spins are zero (`tot_fs ≤ fs`) or the win cap has triggered; and a spin
that reaches the win cap terminates the session immediately even with spins
remaining. -/
theorem C7_freespin_termination (env : ℕ → ℕ × Bool) (st st0 : FsState)
    (s i fuel : ℕ) :
    (st.totFs ≤ maxFreespins →
      (updateFsRetriggerAmt st s).totFs =
        min (st.totFs + freespinTriggersFree s) maxFreespins) ∧
    (st0.fs = 0 → st0.totFs ≤ maxFreespins →
      (runFreespinLoop env maxFreespins 0 st0).totFs ≤ maxFreespins ∧
      ((runFreespinLoop env maxFreespins 0 st0).totFs ≤
          (runFreespinLoop env maxFreespins 0 st0).fs ∨
        (runFreespinLoop env maxFreespins 0 st0).wincapTriggered = true)) ∧
    (st.fs < st.totFs → (fsSpin env i st).wincapTriggered = true →
      runFreespinLoop env (fuel + 1) i st = fsSpin env i st) := by
  refine ⟨updateFsRetriggerAmt_totFs st s, ?_, ?_⟩
  · intro hfs htot
    apply runFreespinLoop_spec
    · exact htot
    · omega
  · intro hlt hw
    simp only [runFreespinLoop]
    rw [if_pos hlt, if_pos hw]

/-- Witness for C7: a session triggered with 8 spins, retriggering with 2
scatters on every spin, stays within the 125-spin cap and terminates; and a
win-cap hit on the first spin ends the session immediately. -/
theorem C7_freespin_termination_witness :
    ((8 : ℕ) ≤ maxFreespins ∧
      (updateFsRetriggerAmt ⟨0, 8, false⟩ 2).totFs =
        min (8 + freespinTriggersFree 2) maxFreespins) ∧
    ((runFreespinLoop (fun _ => (2, false)) maxFreespins 0 ⟨0, 8, false⟩).totFs ≤
        maxFreespins ∧
      ((runFreespinLoop (fun _ => (2, false)) maxFreespins 0 ⟨0, 8, false⟩).totFs ≤
          (runFreespinLoop (fun _ => (2, false)) maxFreespins 0 ⟨0, 8, false⟩).fs ∨
        (runFreespinLoop (fun _ => (2, false)) maxFreespins 0
            ⟨0, 8, false⟩).wincapTriggered = true)) ∧
    ((0 : ℕ) < 8 ∧
      runFreespinLoop (fun _ => (0, true)) 5 0 ⟨0, 8, false⟩ =
        fsSpin (fun _ => (0, true)) 0 ⟨0, 8, false⟩) :=
  ⟨⟨by decide,
      (C7_freespin_termination (fun _ => (2, false)) ⟨0, 8, false⟩ ⟨0, 8, false⟩
        2 0 4).1 (by decide)⟩,
    (C7_freespin_termination (fun _ => (2, false)) ⟨0, 8, false⟩ ⟨0, 8, false⟩
        2 0 4).2.1 rfl (by decide),
    ⟨by decide,
      (C7_freespin_termination (fun _ => (0, true)) ⟨0, 8, false⟩ ⟨0, 8, false⟩
        2 0 4).2.2 (by decide) (by decide)⟩⟩

/-- C10: `GameEngine.spin` raises `ValueError` exactly when the bet exceeds
the current balance, and in that case the game state is left unchanged: no
bet is deducted, no board is generated, no collectors are added, and no
events are queued (the returned state is the input state).  The balance
guard is the only raise in the body; board generation cannot fail because
the engine's default population is nonempty. -/
theorem C10_spin_balance_guard (st : GState) (bet : ℚ) (draws : ℕ → ℕ) :
    ((∃ e, (spin st bet draws).1 = Except.error e) ↔ st.balance < bet) ∧
    ((spin st bet draws).1 = Except.error "Insufficient balance" ↔ st.balance < bet) ∧
    (st.balance < bet → (spin st bet draws).2 = st) := by
  by_cases h : st.balance < bet
  · have hs : spin st bet draws = (Except.error "Insufficient balance", st) := by
      simp only [spin, if_pos h]
    rw [hs]
    exact ⟨⟨fun _ => h, fun _ => ⟨"Insufficient balance", rfl⟩⟩,
      ⟨fun _ => h, fun _ => rfl⟩, fun _ => rfl⟩
  · obtain ⟨r, hr⟩ : ∃ r, (spin st bet draws).1 = Except.ok r := by
      simp only [spin, if_neg h]
      exact ⟨_, rfl⟩
    refine ⟨⟨?_, fun hc => absurd hc h⟩, ⟨?_, fun hc => absurd hc h⟩,
      fun hc => absurd hc h⟩
    · rintro ⟨e, he⟩
      rw [hr] at he
      cases he
    · intro he
      rw [hr] at he
      cases he

/-- Witness for C10: betting 2000 against the initial balance of 1000
raises and leaves the state untouched. -/
theorem C10_spin_balance_guard_witness :
    initialGState.balance < 2000 ∧
    (spin initialGState 2000 (fun _ => 0)).1 = Except.error "Insufficient balance" ∧
    (spin initialGState 2000 (fun _ => 0)).2 = initialGState :=
  ⟨by norm_num [initialGState],
    (C10_spin_balance_guard initialGState 2000 (fun _ => 0)).2.1.mpr
      (by norm_num [initialGState]),
    (C10_spin_balance_guard initialGState 2000 (fun _ => 0)).2.2
      (by norm_num [initialGState])⟩

end MetaVault
